import Mathlib

/-!
The sequence-collision scan of db-tool (`cmd/pgsql.go`).

A shallow embedding of `findSequences`, `findRepeats` and `printRepeats`
from `cmd/pgsql.go`, followed by the properties of the scan.

Modelling conventions.

* Go strings are Lean `String`s; string building (`fmt.Sprintf`, `+=`) is `++`.
* Go's `([]info, error)` results are pairs `List info × Option Error`;
  `nil, err` is `([], some err)`.
* The database handle is external.  `db t q` is the answer of the `t`-th call
  of `db.Query` (counted from 0 within one scan) to the text `q`.  An answer is
  either a query error or a row stream; a row stream is the list of rows that
  `rows.Next()` delivers, each with the outcome of `rows.Scan`, together with
  the value `rows.Err()` would report after `Next` has returned false.
* `printRepeats` yields what it wrote to standard output and how it ended.
-/

set_option maxRecDepth 100000

namespace DbTool

/-! ## Data model -/

/-- An error value; only its message is observable (`%v`). -/
abbrev Error := String

/-- `type info struct` of `cmd/pgsql.go`. -/
structure info where
  tableName : String
  columnName : String
  columnDefault : String
deriving DecidableEq, Repr

/-- The result set behind `*sql.Rows`: `next` lists the rows delivered by
`rows.Next()`, each carrying what `rows.Scan` makes of it (`ok` with the three
decoded fields, or `error`); `err` is the pending iteration error that
`rows.Err()` would return once `Next` has returned false. -/
structure Rows where
  next : List (Except Error info)
  err : Option Error

/-- One call of `db.Query`. -/
abbrev Conn := String → Except Error Rows

/-- The database handle over one scan: the answer of the `t`-th query. -/
abbrev DB := Nat → Conn

/-- How `printRepeats` ends: `return nil`, `return err`, or `log.Fatalf`
(message on standard error, process exit). -/
inductive Exit where
  | ok
  | returned (err : Error)
  | fatal (msg : String)
deriving DecidableEq, Repr

/-- What a call of `printRepeats` leaves behind. -/
structure Output where
  stdout : String
  exit : Exit
deriving DecidableEq, Repr

/-! ## Strings -/

/-- The single-quote character (byte 0x27). -/
def quote : Char := Char.ofNat 39

/-- `strings.ReplaceAll` on the characters of a string, for a pattern `old`
of one byte: every occurrence of `old` is replaced by `new`. -/
def replaceAllChars (old : Char) (new : List Char) : List Char → List Char
  | [] => []
  | c :: cs =>
    if c = old then new ++ replaceAllChars old new cs
    else c :: replaceAllChars old new cs

/-- `strings.ReplaceAll(s, old, new)` for a one-byte `old`. -/
def ReplaceAll (s : String) (old : Char) (new : String) : String :=
  ⟨replaceAllChars old new.data s.data⟩

/-! ## Query texts -/

/-- Text of the discovery query up to the schema name (`%s` filled with `%`). -/
def sequencesHead : String :=
  "\n\tselect table_name, column_name, column_default\n\t\tfrom information_schema.columns\n\twhere column_default like 'nextval%' and table_schema = '"

/-- Text of the discovery query after the schema name. -/
def sequencesEnd : String := "'\n\t"

/-- The `fmt.Sprintf` of `findSequences`. -/
def sequencesQuery (schema : String) : String :=
  sequencesHead ++ schema ++ sequencesEnd

/-- Text of the equality query up to the default expression. -/
def repeatsHead : String :=
  "\n\t\tselect table_name, column_name, column_default\n\t\t\tfrom information_schema.columns\n\t\twhere column_default = '"

/-- Text of the equality query between default expression and schema name. -/
def repeatsMid : String := "' and table_schema = '"

/-- Text of the equality query after the schema name. -/
def repeatsEnd : String := "';\n\t\t"

/-- The `fmt.Sprintf` of `findRepeats`. -/
def repeatsQuery (columnDefault schema : String) : String :=
  repeatsHead ++ columnDefault ++ repeatsMid ++ schema ++ repeatsEnd

/-! ## `findSequences` -/

/-- The `for rows.Next()` loop of `findSequences`; `finds` is the slice built
so far.  A row that fails to scan ends the function with `nil, err`. -/
def findSequencesLoop : List (Except Error info) → List info → List info × Option Error
  | [], finds => (finds, none)
  | Except.error err :: _, _ => ([], some err)
  | Except.ok seq :: rest, finds =>
    findSequencesLoop rest
      (finds ++ [{ seq with columnDefault := ReplaceAll seq.columnDefault quote "''" }])

/-- `findSequences(db, schema)`.  The iteration error of the row stream is
never read: the source has no `rows.Err()` call. -/
def findSequences (db : Conn) (schema : String) : List info × Option Error :=
  match db (sequencesQuery schema) with
  | Except.error err => ([], some err)
  | Except.ok rows => findSequencesLoop rows.next []

/-! ## `findRepeats` -/

/-- The `for rowsSequences.Next()` loop of `findRepeats`, with its three
variables `rowsCount`, `repeatsSequences` and `firstSequence`.  (`rowsCount` is
a Go `int`; it cannot wrap before 2^63 rows have been read.) -/
def findRepeatsLoop :
    List (Except Error info) → Nat → List info → info → List info × Option Error
  | [], _, repeatsSequences, _ => (repeatsSequences, none)
  | row :: rest, rowsCount, repeatsSequences, firstSequence =>
    let rowsCount := rowsCount + 1
    if rowsCount = 1 then
      match row with
      | Except.error err => ([], some err)
      | Except.ok first => findRepeatsLoop rest rowsCount repeatsSequences first
    else if rowsCount > 1 then
      match row with
      | Except.error err => ([], some err)
      | Except.ok dupSeq =>
        if rowsCount = 2 then
          findRepeatsLoop rest rowsCount (repeatsSequences ++ [firstSequence, dupSeq])
            firstSequence
        else
          findRepeatsLoop rest rowsCount (repeatsSequences ++ [dupSeq]) firstSequence
    else
      findRepeatsLoop rest rowsCount repeatsSequences firstSequence

/-- `findRepeats(db, seq, schema)`.  As in `findSequences`, `rows.Err()` is
never consulted. -/
def findRepeats (db : Conn) (seq : info) (schema : String) : List info × Option Error :=
  match db (repeatsQuery seq.columnDefault schema) with
  | Except.error err => ([], some err)
  | Except.ok rowsSequences => findRepeatsLoop rowsSequences.next 0 [] ⟨"", "", ""⟩

/-! ## `printRepeats` -/

/-- The text `fmt.Sprintf("sequence: %s)\ttableName: %s;\tcolumnName: %s;\n", ...)`. -/
def matchLine (m : info) : String :=
  "sequence: " ++ m.columnDefault ++ ")\ttableName: " ++ m.tableName
    ++ ";\tcolumnName: " ++ m.columnName ++ ";\n"

/-- The inner loop `for j := range seqMatches` of `printRepeats`: `lastSeq` is
the variable declared just before the loop, the pair is `(result, matches)`, the slice
`matches` being written `matched`. -/
def matchesLoop : List info → String → String × List info → String × List info
  | [], _, st => st
  | m :: rest, lastSeq, (result, matched) =>
    let result := if lastSeq ≠ m.columnDefault then result ++ "\n" else result
    let result := result ++ matchLine m
    matchesLoop rest m.columnDefault (result, matched ++ [m])

/-- The outer loop `for i := range usages` of `printRepeats`.  `t` numbers the
query that the next `findRepeats` call issues.  `var lastSeq string` is
declared inside the loop body, so every probe starts from the empty string. -/
def usagesLoop (db : DB) (schema : String) :
    List info → Nat → String × List info → (String × List info) × Option Error
  | [], _, st => (st, none)
  | usage :: rest, t, st =>
    match findRepeats (db t) usage schema with
    | (_, some err) => (st, some err)
    | (seqMatches, none) => usagesLoop db schema rest (t + 1) (matchesLoop seqMatches "" st)

/-- `printRepeats(db, schema)`. -/
def printRepeats (db : DB) (schema : String) : Output :=
  match findSequences (db 0) schema with
  | (_, some err) => ⟨"", Exit.fatal ("failed to find sequences: " ++ err)⟩
  | (usages, none) =>
    match usagesLoop db schema usages 1 ("\nMatches:", []) with
    | (_, some err) => ⟨"", Exit.returned err⟩
    | ((result, matched), none) =>
      if matched.length = 0 then
        ⟨"No repeats found for " ++ schema ++ " schema", Exit.ok⟩
      else
        ⟨result ++ "\nTotal:" ++ Nat.repr matched.length ++ "\n", Exit.ok⟩

/-! ## The catalog behind the handle -/

/-- One row of `information_schema.columns` that has a default expression
(a NULL default satisfies neither `like` nor `=`). -/
structure Column where
  tableSchema : String
  tableName : String
  columnName : String
  columnDefault : String
deriving DecidableEq, Repr

/-- The three selected fields of a catalog row. -/
def Column.toInfo (c : Column) : info := ⟨c.tableName, c.columnName, c.columnDefault⟩

/-- Value of an SQL string literal whose body (the text between the opening
and the closing quote) is the given character list: a doubled quote denotes
one quote, and a quote that is not doubled would end the literal early, so
the text is then not the body of one literal (`none`). -/
def sqlLiteralValue : List Char → Option (List Char)
  | [] => some []
  | c :: cs =>
    if c = quote then
      match cs with
      | [] => none
      | d :: rest =>
        if d = quote then (sqlLiteralValue rest).map (quote :: ·) else none
    else (sqlLiteralValue cs).map (c :: ·)

/-- Remove a leading `p` from `s`, if `s` starts with it. -/
def stripPrefix : List Char → List Char → Option (List Char)
  | [], s => some s
  | _ :: _, [] => none
  | a :: p, b :: s => if a = b then stripPrefix p s else none

/-- Remove a trailing `p` from `s`, if `s` ends with it. -/
def stripSuffix (p s : List Char) : Option (List Char) :=
  (stripPrefix p.reverse s.reverse).map List.reverse

/-- The rows a catalog returns for the columns satisfying `keep`, in catalog order. -/
def selectRows (catalog : List Column) (keep : Column → Bool) : Rows :=
  ⟨(catalog.filter keep).map fun c => Except.ok c.toInfo, none⟩

/-- The discovery filter: default starts with `nextval`, in schema `schema`. -/
def isSequenceColumn (schema : String) (c : Column) : Bool :=
  decide (c.tableSchema = schema) && "nextval".data.isPrefixOf c.columnDefault.data

/-- The equality filter: default equals `value`, in schema `schema`. -/
def hasDefault (schema : String) (value : List Char) (c : Column) : Bool :=
  decide (c.tableSchema = schema) && decide (c.columnDefault.data = value)

/-- A fixed catalog answering the two queries of a scan of `schema`: the
discovery query is the filter `isSequenceColumn`, and the equality query
whose literal body reads as the value `v` is the filter `hasDefault v`.  Any
other text is rejected. -/
def catalogQuery (catalog : List Column) (schema : String) : Conn := fun query =>
  if query = sequencesQuery schema then
    Except.ok (selectRows catalog (isSequenceColumn schema))
  else
    match stripPrefix repeatsHead.data query.data with
    | none => Except.error "syntax error"
    | some rest =>
      match stripSuffix (repeatsMid ++ schema ++ repeatsEnd).data rest with
      | none => Except.error "syntax error"
      | some body =>
        match sqlLiteralValue body with
        | none => Except.error "syntax error"
        | some value => Except.ok (selectRows catalog (hasDefault schema value))

/-- A handle on a catalog that does not change during the scan. -/
def catalogDB (catalog : List Column) (schema : String) : DB :=
  fun _ => catalogQuery catalog schema

/-! ## Scenarios -/

/-- The catalog of the reused-sequence scenario. -/
def reusedCatalog : List Column :=
  [⟨"public", "users", "id", "nextval('users_id_seq'::regclass)"⟩,
   ⟨"public", "accounts", "id", "nextval('users_id_seq'::regclass)"⟩,
   ⟨"public", "orders", "id", "nextval('orders_id_seq'::regclass)"⟩]

/-- The scan of the reused-sequence catalog. -/
def reusedDB : DB := catalogDB reusedCatalog "public"

/-- The entry of `users.id`. -/
def usersId : info := ⟨"users", "id", "nextval('users_id_seq'::regclass)"⟩

/-- The entry of `accounts.id`. -/
def accountsId : info := ⟨"accounts", "id", "nextval('users_id_seq'::regclass)"⟩

/-- The entry of `orders.id`. -/
def ordersId : info := ⟨"orders", "id", "nextval('orders_id_seq'::regclass)"⟩

/-- A catalog with one sequence bound to the three columns A, B, C. -/
def tripleCatalog : List Column :=
  [⟨"app", "A", "id", "nextval('s'::regclass)"⟩,
   ⟨"app", "B", "id", "nextval('s'::regclass)"⟩,
   ⟨"app", "C", "id", "nextval('s'::regclass)"⟩]

/-- The entries of A, B, C. -/
def tripleRows : List info :=
  [⟨"A", "id", "nextval('s'::regclass)"⟩, ⟨"B", "id", "nextval('s'::regclass)"⟩,
   ⟨"C", "id", "nextval('s'::regclass)"⟩]

/-- A handle on a catalog that changes between the queries of a scan:
`catalogs t` is the catalog when query number `t` is answered. -/
def driftDB (catalogs : Nat → List Column) (schema : String) : DB :=
  fun t => catalogQuery (catalogs t) schema

/-- Four columns of schema `public` with one and the same sequence default. -/
def colU : Column := ⟨"public", "u", "id", "nextval('s'::regclass)"⟩

/-- See `colU`. -/
def colA : Column := ⟨"public", "a", "id", "nextval('s'::regclass)"⟩

/-- See `colU`. -/
def colX : Column := ⟨"public", "x", "id", "nextval('s'::regclass)"⟩

/-- See `colU`. -/
def colY : Column := ⟨"public", "y", "id", "nextval('s'::regclass)"⟩

/-- One probe that finds all four columns. -/
def mergedDB : DB :=
  driftDB (fun t => if t = 0 then [colU] else [colU, colA, colX, colY]) "public"

/-- Two probes that find two columns each. -/
def splitDB : DB :=
  driftDB (fun t => if t = 0 then [colU, colX] else if t = 1 then [colU, colA] else [colX, colY])
    "public"

/-- A catalog in which every sequence is bound to one column. -/
def distinctCatalog : List Column :=
  [⟨"public", "users", "id", "nextval('users_id_seq'::regclass)"⟩,
   ⟨"public", "orders", "id", "nextval('orders_id_seq'::regclass)"⟩]

/-- The reused-sequence catalog behind a connection that is lost before the
third query: the discovery query and the first probe are answered, the second
probe fails. -/
def interruptedDB : DB := fun t =>
  if t = 2 then fun _ => Except.error "connection reset"
  else catalogQuery reusedCatalog "public"

/-- The reused-sequence catalog behind a connection that drops while the rows
of the discovery query are read: `rows.Next()` returns false before any row,
with a pending iteration error. -/
def droppedDB : DB := fun _ query =>
  if query = sequencesQuery "public" then Except.ok ⟨[], some "unexpected EOF"⟩
  else catalogQuery reusedCatalog "public" query

/-! ## Observations and reference renderings -/

/-- The replacement `findSequences` applies to a decoded row. -/
def escaped (seq : info) : info :=
  { seq with columnDefault := ReplaceAll seq.columnDefault quote "''" }

/-- The slice `matches` of `printRepeats` when its loop has run to the end
(`none` when the scan failed before). -/
def accumulated (db : DB) (schema : String) : Option (List info) :=
  match findSequences (db 0) schema with
  | (_, some _) => none
  | (usages, none) =>
    match usagesLoop db schema usages 1 ("\nMatches:", []) with
    | (_, some _) => none
    | ((_, matched), none) => some matched

/-- The results of the `findRepeats` calls of one scan, in call order; the
first call issues query number `t`. -/
def probes (db : DB) (schema : String) : List info → Nat → List (List info × Option Error)
  | [], _ => []
  | usage :: rest, t => findRepeats (db t) usage schema :: probes db schema rest (t + 1)

/-- Rendering of a run of entries: a newline goes before an entry exactly when
its default expression differs from `lastSeq`, the default expression of the
entry rendered before it (`lastSeq` is the empty string at the start). -/
def runText : String → List info → String
  | _, [] => ""
  | lastSeq, m :: rest =>
    (if lastSeq ≠ m.columnDefault then "\n" else "") ++ matchLine m
      ++ runText m.columnDefault rest

/-- Concatenation of strings. -/
def concat : List String → String
  | [] => ""
  | s :: rest => s ++ concat rest

/-- The message of the no-collision case. -/
def noRepeats (schema : String) : String :=
  "No repeats found for " ++ schema ++ " schema"

/-- The columns of `schema` whose default expression is `d`, in catalog order. -/
def sharing (catalog : List Column) (schema d : String) : List info :=
  (catalog.filter (hasDefault schema d.data)).map Column.toInfo

/-- The columns sharing `d` when they are at least two, nothing otherwise. -/
def collision (catalog : List Column) (schema d : String) : List info :=
  if 2 ≤ (sharing catalog schema d).length then sharing catalog schema d else []

/-- The separators `runText` puts before the entries of a run. -/
def separators : String → List info → List String
  | _, [] => []
  | lastSeq, m :: rest =>
    (if lastSeq ≠ m.columnDefault then "\n" else "") :: separators m.columnDefault rest

/-- Whether the string `s` ends with `suffix`. -/
def hasSuffix (suffix s : String) : Bool :=
  suffix.data.reverse.isPrefixOf s.data.reverse

/-! ## Properties of the loops -/

theorem findSequencesLoop_decoded (rows finds : List info) :
    findSequencesLoop (rows.map Except.ok) finds = (finds ++ rows.map escaped, none) := by
  induction rows generalizing finds with
  | nil => simp [findSequencesLoop]
  | cons r rs ih => simp [findSequencesLoop, ih, escaped]

theorem findSequencesLoop_undecodable (decoded : List info) (e : Error)
    (rest : List (Except Error info)) (finds : List info) :
    findSequencesLoop (decoded.map Except.ok ++ Except.error e :: rest) finds
      = ([], some e) := by
  induction decoded generalizing finds with
  | nil => simp [findSequencesLoop]
  | cons r rs ih => simp [findSequencesLoop, ih]

theorem findRepeatsLoop_later (rows : List info) (n : Nat) (acc : List info) (first : info)
    (hn : 2 ≤ n) :
    findRepeatsLoop (rows.map Except.ok) n acc first = (acc ++ rows, none) := by
  induction rows generalizing n acc with
  | nil => simp [findRepeatsLoop]
  | cons r rs ih =>
    have h1 : ¬ (n + 1 = 1) := by omega
    have h2 : n + 1 > 1 := by omega
    have h3 : ¬ (n + 1 = 2) := by omega
    simp only [List.map_cons, findRepeatsLoop, h1, h2, h3, if_true, if_false]
    rw [ih (n + 1) _ (by omega)]
    simp

theorem findRepeatsLoop_decoded (rows : List info) (first : info) :
    findRepeatsLoop (rows.map Except.ok) 0 [] first
      = (if 2 ≤ rows.length then rows else [], none) := by
  match rows with
  | [] => simp [findRepeatsLoop]
  | [a] => simp [findRepeatsLoop]
  | a :: b :: rest =>
    simp only [List.map_cons, findRepeatsLoop]
    simp only [Nat.zero_add, if_true]
    have h := findRepeatsLoop_later rest 2 [a, b] a (le_refl 2)
    simpa using h

theorem findRepeatsLoop_undecodable (decoded : List info) (e : Error)
    (rest : List (Except Error info)) (n : Nat) (acc : List info) (first : info) :
    findRepeatsLoop (decoded.map Except.ok ++ Except.error e :: rest) n acc first
      = ([], some e) := by
  induction decoded generalizing n acc first with
  | nil =>
    by_cases h1 : n + 1 = 1
    · simp [findRepeatsLoop, h1]
    · have h2 : n + 1 > 1 := by omega
      simp [findRepeatsLoop, h1, h2]
  | cons r rs ih =>
    by_cases h1 : n + 1 = 1
    · simp [findRepeatsLoop, h1, ih]
    · have h2 : n + 1 > 1 := by omega
      by_cases h3 : n + 1 = 2
      · simp [findRepeatsLoop, h1, h2, h3, ih]
      · simp [findRepeatsLoop, h1, h2, h3, ih]

theorem matchesLoop_eq (ms : List info) (lastSeq result : String) (matched : List info) :
    matchesLoop ms lastSeq (result, matched) = (result ++ runText lastSeq ms, matched ++ ms) := by
  induction ms generalizing lastSeq result matched with
  | nil => simp [matchesLoop, runText]
  | cons m rest ih =>
    simp only [matchesLoop, runText]
    rw [ih]
    by_cases h : lastSeq = m.columnDefault
    · simp [h, String.append_assoc]
    · simp [h, String.append_assoc]

theorem concat_append (xs ys : List String) : concat (xs ++ ys) = concat xs ++ concat ys := by
  induction xs with
  | nil => simp [concat]
  | cons x xs ih => simp [concat, ih, String.append_assoc]

theorem probes_length (db : DB) (schema : String) (usages : List info) (t : Nat) :
    (probes db schema usages t).length = usages.length := by
  induction usages generalizing t with
  | nil => simp [probes]
  | cons u us ih => simp [probes, ih]

theorem usagesLoop_succeeds (db : DB) (schema : String) (usages : List info) (t : Nat)
    (result : String) (matched : List info)
    (h : ∀ p ∈ probes db schema usages t, p.2 = none) :
    usagesLoop db schema usages t (result, matched)
      = ((result ++ concat ((probes db schema usages t).map fun p => runText "" p.1),
          matched ++ (probes db schema usages t).flatMap Prod.fst), none) := by
  induction usages generalizing t result matched with
  | nil => simp [usagesLoop, probes, concat]
  | cons u us ih =>
    have hu : (findRepeats (db t) u schema).2 = none := h _ (by simp [probes])
    have hrest : ∀ p ∈ probes db schema us (t + 1), p.2 = none := fun p hp =>
      h p (by simp [probes, hp])
    rcases hfr : findRepeats (db t) u schema with ⟨g, e⟩
    simp only [hfr] at hu
    subst hu
    simp only [usagesLoop, probes, hfr, matchesLoop_eq]
    rw [ih (t + 1) _ _ hrest]
    simp [concat, String.append_assoc]

theorem usagesLoop_fails (db : DB) (schema : String) (usages : List info) (t : Nat)
    (st : String × List info)
    (h : ∃ p ∈ probes db schema usages t, p.2 ≠ none) :
    ∃ st1 e, usagesLoop db schema usages t st = (st1, some e) := by
  induction usages generalizing t st with
  | nil => simp [probes] at h
  | cons u us ih =>
    rcases hfr : findRepeats (db t) u schema with ⟨g, e⟩
    cases e with
    | some err => exact ⟨st, err, by simp [usagesLoop, hfr]⟩
    | none =>
      have hrest : ∃ p ∈ probes db schema us (t + 1), p.2 ≠ none := by
        obtain ⟨p, hp, hne⟩ := h
        simp only [probes, hfr, List.mem_cons] at hp
        rcases hp with rfl | hp
        · exact absurd rfl hne
        · exact ⟨p, hp, hne⟩
      simpa [usagesLoop, hfr] using ih (t + 1) _ hrest

/-- The report of a scan all of whose queries and rows were good. -/
theorem printRepeats_of_probes (db : DB) (schema : String) (usages : List info)
    (hfind : findSequences (db 0) schema = (usages, none))
    (hprobes : ∀ p ∈ probes db schema usages 1, p.2 = none) :
    accumulated db schema = some ((probes db schema usages 1).flatMap Prod.fst) ∧
    printRepeats db schema =
      if ((probes db schema usages 1).flatMap Prod.fst).length = 0 then
        ⟨noRepeats schema, Exit.ok⟩
      else
        ⟨"\nMatches:" ++ concat ((probes db schema usages 1).map fun p => runText "" p.1)
          ++ "\nTotal:" ++ Nat.repr ((probes db schema usages 1).flatMap Prod.fst).length
          ++ "\n", Exit.ok⟩ := by
  have hloop := usagesLoop_succeeds db schema usages 1 "\nMatches:" [] hprobes
  constructor
  · simp [accumulated, hfind, hloop]
  · simp only [printRepeats, hfind, hloop, List.nil_append, noRepeats]

/-- A scan that does not end with `return nil` has written nothing. -/
theorem printRepeats_silent_of_failure (db : DB) (schema : String)
    (h : (printRepeats db schema).exit ≠ Exit.ok) : (printRepeats db schema).stdout = "" := by
  unfold printRepeats at h ⊢
  rcases hfind : findSequences (db 0) schema with ⟨usages, e⟩
  cases e with
  | some err => simp
  | none =>
    rcases hloop : usagesLoop db schema usages 1 ("\nMatches:", []) with ⟨⟨result, matched⟩, e1⟩
    cases e1 with
    | some err => simp [hloop]
    | none =>
      simp only [hfind, hloop] at h
      split at h <;> simp at h

/-! ## Properties of the catalog model -/

theorem stripPrefix_append (p r : List Char) : stripPrefix p (p ++ r) = some r := by
  induction p with
  | nil => cases r <;> simp [stripPrefix]
  | cons a p ih => simp [stripPrefix, ih]

theorem stripSuffix_append (p r : List Char) : stripSuffix p (r ++ p) = some r := by
  simp [stripSuffix, List.reverse_append, stripPrefix_append]

theorem sqlLiteralValue_replaceAll (l : List Char) :
    sqlLiteralValue (replaceAllChars quote [quote, quote] l) = some l := by
  induction l with
  | nil => simp [replaceAllChars, sqlLiteralValue]
  | cons c cs ih =>
    by_cases h : c = quote
    · subst h
      simp [replaceAllChars, sqlLiteralValue, ih]
    · have hcons : ∀ l, sqlLiteralValue (c :: l) = (sqlLiteralValue l).map (c :: ·) := by
        intro l
        cases l <;> simp [sqlLiteralValue, h]
      simp [replaceAllChars, h, hcons, ih]

theorem replaceAllChars_eq_flatMap (old : Char) (new l : List Char) :
    replaceAllChars old new l = l.flatMap fun c => if c = old then new else [c] := by
  induction l with
  | nil => simp [replaceAllChars]
  | cons c cs ih =>
    by_cases h : c = old
    · simp [replaceAllChars, h, ih]
    · simp [replaceAllChars, h, ih]

theorem repeatsQuery_ne_sequencesQuery (x schema : String) :
    repeatsQuery x schema ≠ sequencesQuery schema := by
  intro h
  have h1 : repeatsHead.data = Char.ofNat 10 :: Char.ofNat 9 :: Char.ofNat 9
      :: repeatsHead.data.drop 3 := by decide
  have h2 : sequencesHead.data = Char.ofNat 10 :: Char.ofNat 9 :: Char.ofNat 115
      :: sequencesHead.data.drop 3 := by decide
  have h3 := congrArg String.data h
  simp only [repeatsQuery, sequencesQuery, String.data_append] at h3
  rw [h1, h2] at h3
  simp only [List.cons_append, List.cons.injEq] at h3
  exact absurd h3.2.2.1 (by decide)

theorem catalogQuery_sequences (catalog : List Column) (schema : String) :
    catalogQuery catalog schema (sequencesQuery schema)
      = Except.ok (selectRows catalog (isSequenceColumn schema)) := by
  simp [catalogQuery]

theorem catalogQuery_repeats (catalog : List Column) (schema d : String) :
    catalogQuery catalog schema (repeatsQuery (ReplaceAll d quote "''") schema)
      = Except.ok (selectRows catalog (hasDefault schema d.data)) := by
  have hq : (repeatsQuery (ReplaceAll d quote "''") schema).data
      = repeatsHead.data ++ (replaceAllChars quote [quote, quote] d.data
          ++ (repeatsMid ++ schema ++ repeatsEnd).data) := by
    simp only [repeatsQuery, ReplaceAll, String.data_append, List.append_assoc]
    rfl
  simp only [catalogQuery, repeatsQuery_ne_sequencesQuery, if_false, hq, stripPrefix_append,
    stripSuffix_append, sqlLiteralValue_replaceAll]

theorem findSequences_catalog (catalog : List Column) (schema : String) :
    findSequences (catalogQuery catalog schema) schema
      = ((catalog.filter (isSequenceColumn schema)).map fun c => escaped c.toInfo, none) := by
  have h := findSequencesLoop_decoded
    ((catalog.filter (isSequenceColumn schema)).map Column.toInfo) []
  simp only [List.map_map, List.nil_append] at h
  simp only [findSequences, catalogQuery_sequences, selectRows]
  exact h

theorem findRepeats_catalog (catalog : List Column) (schema : String) (seq : info) :
    findRepeats (catalogQuery catalog schema) (escaped seq) schema
      = (collision catalog schema seq.columnDefault, none) := by
  have h := findRepeatsLoop_decoded
    ((catalog.filter (hasDefault schema seq.columnDefault.data)).map Column.toInfo) ⟨"", "", ""⟩
  simp only [List.map_map] at h
  simp only [findRepeats, escaped, catalogQuery_repeats, selectRows, collision, sharing]
  exact h

theorem probes_catalog (catalog : List Column) (schema : String) (cols : List Column) (t : Nat) :
    probes (catalogDB catalog schema) schema (cols.map fun c => escaped c.toInfo) t
      = cols.map fun c => (collision catalog schema c.columnDefault, none) := by
  induction cols generalizing t with
  | nil => simp [probes]
  | cons c cs ih =>
    simp only [List.map_cons, probes, ih]
    simp [catalogDB, findRepeats_catalog, Column.toInfo]

/-- The entries a scan of a fixed catalog accumulates, and its report. -/
theorem printRepeats_catalog (catalog : List Column) (schema : String) :
    accumulated (catalogDB catalog schema) schema
      = some ((catalog.filter (isSequenceColumn schema)).flatMap fun c =>
          collision catalog schema c.columnDefault) ∧
    printRepeats (catalogDB catalog schema) schema =
      if ((catalog.filter (isSequenceColumn schema)).flatMap fun c =>
          collision catalog schema c.columnDefault).length = 0 then
        ⟨noRepeats schema, Exit.ok⟩
      else
        ⟨"\nMatches:" ++ concat ((catalog.filter (isSequenceColumn schema)).map fun c =>
            runText "" (collision catalog schema c.columnDefault))
          ++ "\nTotal:" ++ Nat.repr ((catalog.filter (isSequenceColumn schema)).flatMap fun c =>
            collision catalog schema c.columnDefault).length
          ++ "\n", Exit.ok⟩ := by
  have hfind : findSequences (catalogDB catalog schema 0) schema
      = ((catalog.filter (isSequenceColumn schema)).map fun c => escaped c.toInfo, none) :=
    findSequences_catalog catalog schema
  have hp := probes_catalog catalog schema (catalog.filter (isSequenceColumn schema)) 1
  have hall : ∀ p ∈ probes (catalogDB catalog schema) schema
      ((catalog.filter (isSequenceColumn schema)).map fun c => escaped c.toInfo) 1,
      p.2 = none := by
    rw [hp]
    intro p hp1
    simp only [List.mem_map] at hp1
    obtain ⟨c, _, rfl⟩ := hp1
    rfl
  have h := printRepeats_of_probes _ schema _ hfind hall
  rw [hp] at h
  simpa [List.flatMap_map, List.map_map, Function.comp_def] using h

/-! ## Properties of the scan -/

theorem mem_probes (db : DB) (schema : String) (usages : List info) (t : Nat)
    (p : List info × Option Error) (hp : p ∈ probes db schema usages t) :
    ∃ k, ∃ hk : k < usages.length, p = findRepeats (db (t + k)) (usages.get ⟨k, hk⟩) schema := by
  induction usages generalizing t with
  | nil => simp [probes] at hp
  | cons u us ih =>
    simp only [probes, List.mem_cons] at hp
    rcases hp with rfl | hp
    · exact ⟨0, by simp, by simp⟩
    · obtain ⟨k, hk, h⟩ := ih (t + 1) hp
      refine ⟨k + 1, by simpa using hk, ?_⟩
      rw [h]
      have : t + 1 + k = t + (k + 1) := by omega
      simp [this]

theorem findRepeats_decoded (db : Conn) (seq : info) (schema : String) (rows : List info)
    (pending : Option Error)
    (h : db (repeatsQuery seq.columnDefault schema) = Except.ok ⟨rows.map Except.ok, pending⟩) :
    findRepeats db seq schema = (if 2 ≤ rows.length then rows else [], none) := by
  simp only [findRepeats, h]
  exact findRepeatsLoop_decoded rows _

theorem accumulated_some (db : DB) (schema : String) (entries : List info)
    (h : accumulated db schema = some entries) :
    ∃ usages, findSequences (db 0) schema = (usages, none) ∧
      (∀ p ∈ probes db schema usages 1, p.2 = none) ∧
      entries = (probes db schema usages 1).flatMap Prod.fst := by
  rcases hfind : findSequences (db 0) schema with ⟨usages, e⟩
  cases e with
  | some err => simp [accumulated, hfind] at h
  | none =>
    refine ⟨usages, rfl, ?_⟩
    by_cases hall : ∀ p ∈ probes db schema usages 1, p.2 = none
    · refine ⟨hall, ?_⟩
      have := (printRepeats_of_probes db schema usages hfind hall).1
      rw [h] at this
      exact Option.some.inj this
    · exfalso
      have hex : ∃ p ∈ probes db schema usages 1, p.2 ≠ none := by
        by_contra hcon
        apply hall
        intro p hp
        by_contra hne
        exact hcon ⟨p, hp, hne⟩
      obtain ⟨st1, e, hloop⟩ := usagesLoop_fails db schema usages 1 ("\nMatches:", []) hex
      simp [accumulated, hfind, hloop] at h

theorem separators_length (lastSeq : String) (ms : List info) :
    (separators lastSeq ms).length = ms.length := by
  induction ms generalizing lastSeq with
  | nil => simp [separators]
  | cons m rest ih => simp [separators, ih]

theorem separators_mem (lastSeq : String) (ms : List info) :
    ∀ s ∈ separators lastSeq ms, s = "" ∨ s = "\n" := by
  induction ms generalizing lastSeq with
  | nil => simp [separators]
  | cons m rest ih =>
    intro s hs
    simp only [separators, List.mem_cons] at hs
    rcases hs with rfl | hs
    · by_cases h : lastSeq = m.columnDefault <;> simp [h]
    · exact ih _ s hs

theorem runText_eq_zipWith (lastSeq : String) (ms : List info) :
    runText lastSeq ms
      = concat (List.zipWith
          (fun s m => s ++ ("sequence: " ++ m.columnDefault ++ ")\ttableName: " ++ m.tableName
            ++ ";\tcolumnName: " ++ m.columnName ++ ";") ++ "\n")
          (separators lastSeq ms) ms) := by
  induction ms generalizing lastSeq with
  | nil => simp [runText, separators, concat]
  | cons m rest ih =>
    have hsemi : (";\n" : String) = ";" ++ "\n" := by decide
    simp only [runText, separators, List.zipWith_cons_cons, concat, ih, matchLine, hsemi,
      String.append_assoc]

theorem concat_runText (groups : List (List info)) :
    concat (groups.map (runText ""))
      = concat (List.zipWith
          (fun s m => s ++ ("sequence: " ++ m.columnDefault ++ ")\ttableName: " ++ m.tableName
            ++ ";\tcolumnName: " ++ m.columnName ++ ";") ++ "\n")
          (groups.flatMap (separators "")) (groups.flatMap id)) := by
  induction groups with
  | nil => simp [concat]
  | cons g gs ih =>
    simp only [List.map_cons, concat, List.flatMap_cons, id]
    rw [List.zipWith_append _ _ _ _ _ (separators_length "" g), concat_append, ← ih,
      runText_eq_zipWith]

theorem separators_head (groups : List (List info))
    (hne : groups.flatMap id ≠ [])
    (hdef : ∀ m ∈ groups.flatMap id, m.columnDefault ≠ "") :
    (groups.flatMap (separators "")).head? = some "\n" := by
  induction groups with
  | nil => simp at hne
  | cons g gs ih =>
    cases g with
    | nil =>
      simp only [List.flatMap_cons, id, List.nil_append, separators] at hne hdef ⊢
      exact ih hne hdef
    | cons m rest =>
      have hm : m.columnDefault ≠ "" := hdef m (by simp)
      have hm2 : ¬ ("" = m.columnDefault) := fun h => hm h.symm
      simp [separators, hm2]

theorem sharing_length (catalog : List Column) (schema d : String) :
    (sharing catalog schema d).length
      = (catalog.filter fun k => decide (k.tableSchema = schema ∧ k.columnDefault = d)).length := by
  have : (hasDefault schema d.data) = fun k : Column =>
      decide (k.tableSchema = schema ∧ k.columnDefault = d) := by
    funext k
    simp [hasDefault, String.ext_iff]
  simp [sharing, this]

theorem mem_sharing (catalog : List Column) (schema d : String) (x : info) :
    x ∈ sharing catalog schema d
      ↔ ∃ k ∈ catalog, k.tableSchema = schema ∧ k.columnDefault = d ∧ k.toInfo = x := by
  simp only [sharing, List.mem_map, List.mem_filter, hasDefault, Bool.and_eq_true,
    decide_eq_true_eq, ← String.ext_iff]
  constructor
  · rintro ⟨k, ⟨hk, hs, hd⟩, rfl⟩
    exact ⟨k, hk, hs, hd, rfl⟩
  · rintro ⟨k, hk, hs, hd, rfl⟩
    exact ⟨k, ⟨hk, hs, hd⟩, rfl⟩

theorem mem_collision (catalog : List Column) (schema d : String) (x : info) :
    x ∈ collision catalog schema d
      ↔ 2 ≤ (sharing catalog schema d).length ∧ x ∈ sharing catalog schema d := by
  unfold collision
  split <;> simp_all

theorem printRepeats_of_accumulated (db : DB) (schema : String) (entries : List info)
    (h : accumulated db schema = some entries) :
    ∃ groups : List (List info), entries = groups.flatMap id ∧
      printRepeats db schema =
        if entries.length = 0 then ⟨noRepeats schema, Exit.ok⟩
        else ⟨"\nMatches:" ++ concat (groups.map (runText ""))
          ++ "\nTotal:" ++ Nat.repr entries.length ++ "\n", Exit.ok⟩ := by
  obtain ⟨usages, hfind, hall, hent⟩ := accumulated_some db schema entries h
  refine ⟨(probes db schema usages 1).map Prod.fst, ?_, ?_⟩
  · simp [hent, List.flatMap_map, Function.comp_def]
  · have := (printRepeats_of_probes db schema usages hfind hall).2
    rw [← hent] at this
    simpa [List.map_map, Function.comp_def] using this

theorem flatMap_const_length {α β : Type} (l : List α) (g : List β) :
    (l.flatMap fun _ => g).length = l.length * g.length := by
  induction l with
  | nil => simp
  | cons a l ih => simp [ih, Nat.add_mul, Nat.add_comm]

theorem filter_sequence_eq_filter_default (catalog : List Column) (schema d : String)
    (hall : ∀ c ∈ catalog, isSequenceColumn schema c = true → c.columnDefault = d)
    (hpre : "nextval".data.isPrefixOf d.data = true) :
    catalog.filter (isSequenceColumn schema) = catalog.filter (hasDefault schema d.data) := by
  apply List.filter_congr
  intro c hc
  rw [Bool.eq_iff_iff]
  constructor
  · intro hseq
    have hd := hall c hc hseq
    simp only [isSequenceColumn, Bool.and_eq_true, decide_eq_true_eq] at hseq
    simp [hasDefault, hseq.1, hd]
  · intro hdef
    simp only [hasDefault, Bool.and_eq_true, decide_eq_true_eq] at hdef
    simp [isSequenceColumn, hdef.1, hdef.2, hpre]

theorem report_ne_noRepeats (schema body : String) :
    "\nMatches:" ++ body ≠ "No repeats found for " ++ schema ++ " schema" := by
  intro h
  have h1 := congrArg (fun t : String => t.data.head?) h
  simp [String.data_append] at h1

theorem flatMap_fst_nil (ps : List (List info × Option Error))
    (h : ∀ p ∈ ps, p = ([], none)) : ps.flatMap Prod.fst = [] := by
  induction ps with
  | nil => rfl
  | cons p ps ih =>
    have hp := h p (by simp)
    have hrest := ih fun q hq => h q (by simp [hq])
    simp [hp, hrest]

theorem separators_flatMap_length (groups : List (List info)) :
    (groups.flatMap (separators "")).length = (groups.flatMap id).length := by
  induction groups with
  | nil => rfl
  | cons g gs ih => simp [separators_length, ih]

theorem separators_flatMap_mem (groups : List (List info)) :
    ∀ s ∈ groups.flatMap (separators ""), s = "" ∨ s = "\n" := by
  intro s hs
  obtain ⟨g, _, hg⟩ := List.mem_flatMap.1 hs
  exact separators_mem "" g s hg

/-! ## Specification properties -/

/-- C1. Grouping rule of `findRepeats`: when the equality query of a probe
answers with N rows that all decode, `findRepeats` returns exactly these N
rows, unchanged and in query order, with no error, if N is at least 2, and it
returns the empty group, with no error, if N is 0 or 1. -/
theorem findRepeats_grouping (db : Conn) (seq : info) (schema : String) (rows : List info)
    (pending : Option Error)
    (h : db (repeatsQuery seq.columnDefault schema)
      = Except.ok ⟨rows.map Except.ok, pending⟩) :
    (2 ≤ rows.length → findRepeats db seq schema = (rows, none)) ∧
    (rows.length = 0 ∨ rows.length = 1 → findRepeats db seq schema = ([], none)) := by
  have hfr := findRepeats_decoded db seq schema rows pending h
  constructor
  · intro h2
    simpa [h2] using hfr
  · intro h01
    have : ¬ (2 ≤ rows.length) := by omega
    simpa [this] using hfr

/-- C1 at the probe B of the catalog with one sequence bound to A, B, C. -/
theorem findRepeats_grouping_witness :
    catalogQuery tripleCatalog "app"
        (repeatsQuery (escaped ⟨"B", "id", "nextval('s'::regclass)"⟩).columnDefault "app")
      = Except.ok ⟨tripleRows.map Except.ok, none⟩ ∧
    findRepeats (catalogQuery tripleCatalog "app")
        (escaped ⟨"B", "id", "nextval('s'::regclass)"⟩) "app"
      = (tripleRows, none) :=
  ⟨rfl, (findRepeats_grouping (catalogQuery tripleCatalog "app")
    (escaped ⟨"B", "id", "nextval('s'::regclass)"⟩) "app" tripleRows none rfl).1 (by decide)⟩

/-- C2. Detection over a fixed catalog is sound and complete: a column of
schema S appears among the entries accumulated by `printRepeats` if and only
if its default expression starts with `nextval` and is the default expression
of at least two columns of S; a column whose default expression is bound to
exactly one column of S never appears. -/
theorem detection_sound_complete (catalog : List Column) (schema : String) (c : Column)
    (hc : c ∈ catalog) (hs : c.tableSchema = schema) :
    ∃ entries, accumulated (catalogDB catalog schema) schema = some entries ∧
      (c.toInfo ∈ entries ↔
        ("nextval".data.isPrefixOf c.columnDefault.data = true ∧
          2 ≤ (catalog.filter fun k =>
            decide (k.tableSchema = schema ∧ k.columnDefault = c.columnDefault)).length)) ∧
      ((catalog.filter fun k =>
          decide (k.tableSchema = schema ∧ k.columnDefault = c.columnDefault)).length = 1 →
        c.toInfo ∉ entries) := by
  refine ⟨_, (printRepeats_catalog catalog schema).1, ?_⟩
  have key : c.toInfo ∈ ((catalog.filter (isSequenceColumn schema)).flatMap fun k =>
        collision catalog schema k.columnDefault) ↔
      ("nextval".data.isPrefixOf c.columnDefault.data = true ∧
        2 ≤ (catalog.filter fun k =>
          decide (k.tableSchema = schema ∧ k.columnDefault = c.columnDefault)).length) := by
    rw [← sharing_length]
    simp only [List.mem_flatMap, List.mem_filter, mem_collision, mem_sharing]
    constructor
    · rintro ⟨k, ⟨_, hseq⟩, h2, k1, _, _, hd, hinfo⟩
      have hcd : c.columnDefault = k.columnDefault := by
        have := congrArg info.columnDefault hinfo
        simp only [Column.toInfo] at this
        rw [← this, hd]
      simp only [isSequenceColumn, Bool.and_eq_true, decide_eq_true_eq] at hseq
      rw [hcd]
      exact ⟨hseq.2, h2⟩
    · rintro ⟨hpre, h2⟩
      refine ⟨c, ⟨hc, ?_⟩, h2, c, hc, hs, rfl, rfl⟩
      simp [isSequenceColumn, hs, hpre]
  refine ⟨key, ?_⟩
  intro h1 hmem
  have := (key.1 hmem).2
  omega

/-- C2 at `orders.id` of the reused-sequence catalog, whose sequence is bound
to that column only. -/
theorem detection_sound_complete_witness :
    (⟨"public", "orders", "id", "nextval('orders_id_seq'::regclass)"⟩ : Column) ∈ reusedCatalog ∧
    ∃ entries, accumulated (catalogDB reusedCatalog "public") "public" = some entries ∧
      ((⟨"public", "orders", "id", "nextval('orders_id_seq'::regclass)"⟩ : Column).toInfo
          ∈ entries ↔
        ("nextval".data.isPrefixOf "nextval('orders_id_seq'::regclass)".data = true ∧
          2 ≤ (reusedCatalog.filter fun k =>
            decide (k.tableSchema = "public" ∧
              k.columnDefault = "nextval('orders_id_seq'::regclass)")).length)) ∧
      ((reusedCatalog.filter fun k =>
          decide (k.tableSchema = "public" ∧
            k.columnDefault = "nextval('orders_id_seq'::regclass)")).length = 1 →
        (⟨"public", "orders", "id", "nextval('orders_id_seq'::regclass)"⟩ : Column).toInfo
          ∉ entries) :=
  ⟨by decide, detection_sound_complete reusedCatalog "public"
    ⟨"public", "orders", "id", "nextval('orders_id_seq'::regclass)"⟩ (by decide) rfl⟩

/-- C3, refuted as stated. In the reused-sequence scenario the scan does not
report `users.id` and `accounts.id` once with a printed total of 2. -/
theorem reused_sequence_total_not_two :
    ¬ ∃ entries, accumulated reusedDB "public" = some entries ∧
      ordersId ∉ entries ∧ usersId ∈ entries ∧ accountsId ∈ entries ∧
      entries.length = 2 ∧
      hasSuffix "\nTotal:2\n" (printRepeats reusedDB "public").stdout = true := by
  rintro ⟨entries, hacc, -, -, -, hlen, -⟩
  have h4 : accumulated reusedDB "public"
      = some [usersId, accountsId, usersId, accountsId] := by decide
  rw [h4] at hacc
  have := Option.some.inj hacc
  subst this
  simp at hlen

/-- C3, amended. In the reused-sequence scenario `orders.id` is never emitted,
the group `users.id`, `accounts.id` is emitted twice (once for the probe
`users.id`, once for the probe `accounts.id`), and the printed total is 4. -/
theorem reused_sequence_scenario :
    accumulated reusedDB "public" = some [usersId, accountsId, usersId, accountsId] ∧
    ordersId ∉ [usersId, accountsId, usersId, accountsId] ∧
    printRepeats reusedDB "public" =
      ⟨"\nMatches:\nsequence: nextval('users_id_seq'::regclass))\ttableName: users;\tcolumnName: id;\nsequence: nextval('users_id_seq'::regclass))\ttableName: accounts;\tcolumnName: id;\n\nsequence: nextval('users_id_seq'::regclass))\ttableName: users;\tcolumnName: id;\nsequence: nextval('users_id_seq'::regclass))\ttableName: accounts;\tcolumnName: id;\n\nTotal:4\n",
        Exit.ok⟩ := by
  decide

/-- C4. Redundant re-emission. `printRepeats` calls `findRepeats` once per
binding returned by `findSequences` and appends every returned group, so the
accumulated entries are the concatenation of the groups of all discovered
bindings and their number is the sum of the group sizes. For a catalog whose
only sequence default `d` is shared by N columns, N at least 2, the N-entry
group is emitted N times and the printed total is N * N. -/
theorem redundant_reemission :
    (∀ (db : DB) (schema : String) (usages : List info),
      findSequences (db 0) schema = (usages, none) →
      (∀ p ∈ probes db schema usages 1, p.2 = none) →
      (probes db schema usages 1).length = usages.length ∧
      ∃ entries, accumulated db schema = some entries ∧
        entries = (probes db schema usages 1).flatMap Prod.fst ∧
        entries.length = ((probes db schema usages 1).map fun p => p.1.length).sum) ∧
    (∀ (catalog : List Column) (schema d : String),
      (∀ c ∈ catalog, isSequenceColumn schema c = true → c.columnDefault = d) →
      "nextval".data.isPrefixOf d.data = true →
      2 ≤ (sharing catalog schema d).length →
      ∃ entries, accumulated (catalogDB catalog schema) schema = some entries ∧
        entries = ((sharing catalog schema d).flatMap fun _ => sharing catalog schema d) ∧
        entries.length = (sharing catalog schema d).length * (sharing catalog schema d).length ∧
        ∃ body, (printRepeats (catalogDB catalog schema) schema).stdout
          = body ++ "\nTotal:"
            ++ Nat.repr ((sharing catalog schema d).length * (sharing catalog schema d).length)
            ++ "\n") := by
  constructor
  · intro db schema usages hfind hall
    refine ⟨probes_length db schema usages 1, _,
      (printRepeats_of_probes db schema usages hfind hall).1, rfl, ?_⟩
    simp [List.length_flatMap, Function.comp_def]
  · intro catalog schema d hall hpre h2
    have hacc := (printRepeats_catalog catalog schema).1
    have hE : ((catalog.filter (isSequenceColumn schema)).flatMap fun c =>
        collision catalog schema c.columnDefault)
        = ((sharing catalog schema d).flatMap fun _ => sharing catalog schema d) := by
      have hcol : ∀ c ∈ catalog.filter (isSequenceColumn schema),
          collision catalog schema c.columnDefault = sharing catalog schema d := by
        intro c hc
        have hd := hall c (List.mem_filter.1 hc).1 (List.mem_filter.1 hc).2
        simp [collision, hd, h2]
      have h1 : ((catalog.filter (isSequenceColumn schema)).flatMap fun c =>
          collision catalog schema c.columnDefault)
          = ((catalog.filter (isSequenceColumn schema)).flatMap fun _ =>
            sharing catalog schema d) := by
        simp only [List.flatMap, List.map_congr_left hcol]
      rw [h1, filter_sequence_eq_filter_default catalog schema d hall hpre]
      simp [sharing, List.flatMap_map, Function.comp_def]
    rw [hE] at hacc
    have hlen := flatMap_const_length (sharing catalog schema d) (sharing catalog schema d)
    refine ⟨_, hacc, rfl, hlen, ?_⟩
    obtain ⟨groups, _, hprint⟩ := printRepeats_of_accumulated _ _ _ hacc
    have hpos : ¬ (((sharing catalog schema d).flatMap fun _ =>
        sharing catalog schema d).length = 0) := by
      rw [hlen]
      have : 2 * 2 ≤ (sharing catalog schema d).length * (sharing catalog schema d).length :=
        Nat.mul_le_mul h2 h2
      omega
    rw [if_neg hpos, hlen] at hprint
    exact ⟨_, by rw [hprint]⟩

/-- C4 at the catalog with one sequence bound to A, B, C: the group of three
is emitted three times and the printed total is 9. -/
theorem redundant_reemission_witness :
    (∀ c ∈ tripleCatalog, isSequenceColumn "app" c = true →
      c.columnDefault = "nextval('s'::regclass)") ∧
    (sharing tripleCatalog "app" "nextval('s'::regclass)").length = 3 ∧
    hasSuffix "\nTotal:9\n" (printRepeats (catalogDB tripleCatalog "app") "app").stdout = true ∧
    ∃ entries, accumulated (catalogDB tripleCatalog "app") "app" = some entries ∧
      entries = ((sharing tripleCatalog "app" "nextval('s'::regclass)").flatMap fun _ =>
        sharing tripleCatalog "app" "nextval('s'::regclass)") ∧
      entries.length = (sharing tripleCatalog "app" "nextval('s'::regclass)").length
        * (sharing tripleCatalog "app" "nextval('s'::regclass)").length ∧
      ∃ body, (printRepeats (catalogDB tripleCatalog "app") "app").stdout
        = body ++ "\nTotal:"
          ++ Nat.repr ((sharing tripleCatalog "app" "nextval('s'::regclass)").length
            * (sharing tripleCatalog "app" "nextval('s'::regclass)").length)
          ++ "\n" :=
  ⟨by decide, by decide, by decide,
    redundant_reemission.2 tripleCatalog "app" "nextval('s'::regclass)" (by decide) (by decide)
      (by decide)⟩

/-- C5, refuted as stated. In the reused-sequence scenario the accumulated
entries are `users.id`, `accounts.id`, `users.id`, `accounts.id`, all with one
default expression, and the report has a newline before the third entry, so
it is not the rendering of the flat list by the rule "newline exactly when the
default expression differs from that of the preceding entry". Moreover two
scans accumulate the same four entries and print different reports. -/
theorem blank_line_not_from_flat_list :
    (¬ ∀ entries, accumulated reusedDB "public" = some entries → entries ≠ [] →
      (printRepeats reusedDB "public").stdout
        = "\nMatches:" ++ runText "" entries ++ "\nTotal:" ++ Nat.repr entries.length ++ "\n") ∧
    (accumulated mergedDB "public" = accumulated splitDB "public" ∧
      (printRepeats mergedDB "public").stdout ≠ (printRepeats splitDB "public").stdout) := by
  constructor
  · intro h
    have h4 : accumulated reusedDB "public"
        = some [usersId, accountsId, usersId, accountsId] := by decide
    have := h _ h4 (by decide)
    revert this
    decide
  · decide

/-- C5, amended. The comparison restarts at every probe: the report of a scan
is the header, then for each probe in turn the rendering of its group by
`runText` started from the empty string (a newline before an entry exactly
when its default expression differs from that of the entry before it in the
same group, or from the empty string for the first entry of the group), then
the total. The report is thus a function of the ordered list of groups. -/
theorem blank_line_per_probe (db : DB) (schema : String) (usages : List info)
    (hfind : findSequences (db 0) schema = (usages, none))
    (hall : ∀ p ∈ probes db schema usages 1, p.2 = none)
    (hne : (probes db schema usages 1).flatMap Prod.fst ≠ []) :
    (printRepeats db schema).stdout
      = "\nMatches:" ++ concat ((probes db schema usages 1).map fun p => runText "" p.1)
        ++ "\nTotal:" ++ Nat.repr ((probes db schema usages 1).flatMap Prod.fst).length
        ++ "\n" := by
  have h := (printRepeats_of_probes db schema usages hfind hall).2
  have hlen : ¬ (((probes db schema usages 1).flatMap Prod.fst).length = 0) := by
    intro h0
    exact hne (List.length_eq_zero.1 h0)
  rw [if_neg hlen] at h
  rw [h]

/-- C5 (amended) at the reused-sequence scenario: two groups, each preceded by
a newline. -/
theorem blank_line_per_probe_witness :
    findSequences (reusedDB 0) "public"
      = ([escaped usersId, escaped accountsId, escaped ordersId], none) ∧
    (∀ p ∈ probes reusedDB "public" [escaped usersId, escaped accountsId, escaped ordersId] 1,
      p.2 = none) ∧
    (printRepeats reusedDB "public").stdout
      = "\nMatches:"
        ++ concat ((probes reusedDB "public"
            [escaped usersId, escaped accountsId, escaped ordersId] 1).map
              fun p => runText "" p.1)
        ++ "\nTotal:"
        ++ Nat.repr ((probes reusedDB "public"
            [escaped usersId, escaped accountsId, escaped ordersId] 1).flatMap Prod.fst).length
        ++ "\n" :=
  ⟨by decide, by decide,
    blank_line_per_probe reusedDB "public"
      [escaped usersId, escaped accountsId, escaped ordersId] (by decide) (by decide)
      (by decide)⟩

/-- C6. No-collision output: when no entry is accumulated, `printRepeats`
writes exactly `No repeats found for S schema` and returns no error; this is
so in particular when the discovery query returns no row, and when the
equality query of every discovered binding returns fewer than two rows. When
at least one entry is accumulated, that message is not what is written. -/
theorem no_collision_output (db : DB) (schema : String) :
    (accumulated db schema = some [] →
      printRepeats db schema = ⟨"No repeats found for " ++ schema ++ " schema", Exit.ok⟩) ∧
    (db 0 (sequencesQuery schema) = Except.ok ⟨[], none⟩ →
      printRepeats db schema = ⟨"No repeats found for " ++ schema ++ " schema", Exit.ok⟩) ∧
    (∀ usages, findSequences (db 0) schema = (usages, none) →
      (∀ k (hk : k < usages.length), ∃ (found : List info) (pending : Option Error),
        db (k + 1) (repeatsQuery (usages.get ⟨k, hk⟩).columnDefault schema)
          = Except.ok ⟨found.map Except.ok, pending⟩ ∧ found.length < 2) →
      printRepeats db schema = ⟨"No repeats found for " ++ schema ++ " schema", Exit.ok⟩) ∧
    (∀ entries, accumulated db schema = some entries → entries ≠ [] →
      (printRepeats db schema).exit = Exit.ok ∧
      (printRepeats db schema).stdout ≠ "No repeats found for " ++ schema ++ " schema") := by
  have hthird : ∀ usages, findSequences (db 0) schema = (usages, none) →
      (∀ k (hk : k < usages.length), ∃ (found : List info) (pending : Option Error),
        db (k + 1) (repeatsQuery (usages.get ⟨k, hk⟩).columnDefault schema)
          = Except.ok ⟨found.map Except.ok, pending⟩ ∧ found.length < 2) →
      printRepeats db schema = ⟨"No repeats found for " ++ schema ++ " schema", Exit.ok⟩ := by
    intro usages hfind hrows
    have hp : ∀ p ∈ probes db schema usages 1, p = ([], none) := by
      intro p hp
      obtain ⟨k, hk, rfl⟩ := mem_probes db schema usages 1 p hp
      obtain ⟨found, pending, hq, hlt⟩ := hrows k hk
      rw [Nat.add_comm 1 k, findRepeats_decoded _ _ _ found pending hq]
      have : ¬ (2 ≤ found.length) := by omega
      simp [this]
    have hall : ∀ p ∈ probes db schema usages 1, p.2 = none := fun p h => by rw [hp p h]
    have h := (printRepeats_of_probes db schema usages hfind hall).2
    rw [flatMap_fst_nil _ hp] at h
    simpa [noRepeats] using h
  refine ⟨?_, ?_, hthird, ?_⟩
  · intro h
    obtain ⟨groups, _, hprint⟩ := printRepeats_of_accumulated db schema [] h
    simpa [noRepeats] using hprint
  · intro hq
    have hfind : findSequences (db 0) schema = ([], none) := by
      simp [findSequences, hq, findSequencesLoop]
    exact hthird [] hfind (fun k hk => absurd hk (by simp))
  · intro entries h hne
    obtain ⟨groups, _, hprint⟩ := printRepeats_of_accumulated db schema entries h
    have hlen : ¬ (entries.length = 0) := fun h0 => hne (List.length_eq_zero.1 h0)
    rw [if_neg hlen] at hprint
    rw [hprint]
    refine ⟨rfl, ?_⟩
    simp only [String.append_assoc]
    exact report_ne_noRepeats schema _

/-- C6 at a catalog in which every sequence is bound to one column. -/
theorem no_collision_output_witness :
    accumulated (catalogDB distinctCatalog "public") "public" = some [] ∧
    printRepeats (catalogDB distinctCatalog "public") "public"
      = ⟨"No repeats found for public schema", Exit.ok⟩ :=
  ⟨by decide, (no_collision_output (catalogDB distinctCatalog "public") "public").1 (by decide)⟩

/-- C7. Escaping round trip: the transform of `findSequences` doubles every
single quote of a default expression and changes nothing else; read as the
body of an SQL string literal the escaped text has the original expression as
its value (so no quote in it is unpaired); and the equality query that
`findRepeats` builds from the escaped expression selects exactly the catalog
rows of the schema whose default expression is the original one. -/
theorem escaping_round_trip (s : String) (catalog : List Column) (schema : String)
    (tableName columnName : String) :
    (ReplaceAll s quote "''").data
      = s.data.flatMap (fun c => if c = quote then [quote, quote] else [c]) ∧
    sqlLiteralValue (ReplaceAll s quote "''").data = some s.data ∧
    findSequences (catalogQuery catalog schema) schema
      = ((catalog.filter (isSequenceColumn schema)).map fun c =>
          ⟨c.tableName, c.columnName, ReplaceAll c.columnDefault quote "''"⟩, none) ∧
    catalogQuery catalog schema (repeatsQuery (ReplaceAll s quote "''") schema)
      = Except.ok ⟨(catalog.filter fun c =>
          decide (c.tableSchema = schema ∧ c.columnDefault = s)).map
            fun c => Except.ok c.toInfo, none⟩ ∧
    findRepeats (catalogQuery catalog schema) ⟨tableName, columnName, ReplaceAll s quote "''"⟩
        schema
      = (if 2 ≤ (sharing catalog schema s).length then sharing catalog schema s else [],
          none) := by
  refine ⟨?_, ?_, ?_, ?_, ?_⟩
  · exact replaceAllChars_eq_flatMap quote [quote, quote] s.data
  · exact sqlLiteralValue_replaceAll s.data
  · rw [findSequences_catalog]
    rfl
  · rw [catalogQuery_repeats]
    have : (hasDefault schema s.data) = fun k : Column =>
        decide (k.tableSchema = schema ∧ k.columnDefault = s) := by
      funext k
      simp [hasDefault, String.ext_iff]
    simp [selectRows, this]
  · exact findRepeats_catalog catalog schema ⟨tableName, columnName, s⟩

/-- C8. Abort without partial report. A discovery query or an equality query
that fails to execute, and a row of either that fails to decode, make
`findSequences` and `findRepeats` return that error with no bindings, whatever
rows were decoded before. When the discovery fails, or the probe of any
discovered binding fails, `printRepeats` ends in failure and has written
nothing to standard output, however many earlier probes contributed entries;
no run that ends in failure has written anything. -/
theorem abort_without_partial_report (db : DB) (schema : String) :
    (∀ (conn : Conn) (e : Error), conn (sequencesQuery schema) = Except.error e →
      findSequences conn schema = ([], some e)) ∧
    (∀ (conn : Conn) (decoded : List info) (e : Error) (rest : List (Except Error info))
        (pending : Option Error),
      conn (sequencesQuery schema)
        = Except.ok ⟨decoded.map Except.ok ++ Except.error e :: rest, pending⟩ →
      findSequences conn schema = ([], some e)) ∧
    (∀ (conn : Conn) (seq : info) (e : Error),
      conn (repeatsQuery seq.columnDefault schema) = Except.error e →
      findRepeats conn seq schema = ([], some e)) ∧
    (∀ (conn : Conn) (seq : info) (decoded : List info) (e : Error)
        (rest : List (Except Error info)) (pending : Option Error),
      conn (repeatsQuery seq.columnDefault schema)
        = Except.ok ⟨decoded.map Except.ok ++ Except.error e :: rest, pending⟩ →
      findRepeats conn seq schema = ([], some e)) ∧
    ((findSequences (db 0) schema).2 ≠ none →
      (printRepeats db schema).stdout = "" ∧
      ∃ msg, (printRepeats db schema).exit = Exit.fatal msg) ∧
    (∀ usages, findSequences (db 0) schema = (usages, none) →
      (∃ p ∈ probes db schema usages 1, p.2 ≠ none) →
      (printRepeats db schema).stdout = "" ∧
      ∃ err, (printRepeats db schema).exit = Exit.returned err) ∧
    ((printRepeats db schema).exit ≠ Exit.ok → (printRepeats db schema).stdout = "") := by
  refine ⟨?_, ?_, ?_, ?_, ?_, ?_, printRepeats_silent_of_failure db schema⟩
  · intro conn e h
    simp [findSequences, h]
  · intro conn decoded e rest pending h
    simp only [findSequences, h]
    exact findSequencesLoop_undecodable decoded e rest []
  · intro conn seq e h
    simp [findRepeats, h]
  · intro conn seq decoded e rest pending h
    simp only [findRepeats, h]
    exact findRepeatsLoop_undecodable decoded e rest 0 [] _
  · intro h
    rcases hfind : findSequences (db 0) schema with ⟨usages, e⟩
    cases e with
    | none => simp [hfind] at h
    | some err => simp [printRepeats, hfind]
  · intro usages hfind hfail
    obtain ⟨st1, e, hloop⟩ := usagesLoop_fails db schema usages 1 ("\nMatches:", []) hfail
    simp [printRepeats, hfind, hloop]

/-- C8 at a scan whose first probe contributes two entries and whose second
probe fails: nothing is written and the error is returned. -/
theorem abort_without_partial_report_witness :
    findSequences (interruptedDB 0) "public"
      = ([escaped usersId, escaped accountsId, escaped ordersId], none) ∧
    findRepeats (interruptedDB 1) (escaped usersId) "public" = ([usersId, accountsId], none) ∧
    findRepeats (interruptedDB 2) (escaped accountsId) "public"
      = ([], some "connection reset") ∧
    (printRepeats interruptedDB "public").stdout = "" ∧
    ∃ err, (printRepeats interruptedDB "public").exit = Exit.returned err :=
  ⟨by decide, by decide, by decide,
    (abort_without_partial_report interruptedDB "public").2.2.2.2.2.1
      [escaped usersId, escaped accountsId, escaped ordersId] (by decide)
      ⟨([], some "connection reset"), by decide, by decide⟩⟩

/-- C9, the code at the failing input. The row stream of the discovery query
ends early with a pending iteration error; `findSequences` returns the
truncated (here empty) list with no error, and `printRepeats` reports that
the schema has no repeats and returns no error, although the catalog holds a
reused sequence. -/
theorem iteration_error_is_swallowed :
    droppedDB 0 (sequencesQuery "public") = Except.ok ⟨[], some "unexpected EOF"⟩ ∧
    findSequences (droppedDB 0) "public" = ([], none) ∧
    printRepeats droppedDB "public" = ⟨"No repeats found for public schema", Exit.ok⟩ := by
  refine ⟨rfl, ?_, ?_⟩ <;> decide

/-- C10. Report content: when at least one entry is accumulated, the printed
text is the header `Matches:`, then for every accumulated entry, in
accumulation order, the line
`sequence: <default>)<tab>tableName: <table>;<tab>columnName: <column>;`
(each line preceded by either nothing or one separating newline, the first of
these being the newline that ends the header whenever the defaults are
non-empty), and finally `Total:<count>` with the number of accumulated
entries; no error is returned. -/
theorem report_content (db : DB) (schema : String) (entries : List info)
    (h : accumulated db schema = some entries) (hne : entries ≠ []) :
    ∃ seps : List String, seps.length = entries.length ∧
      (∀ s ∈ seps, s = "" ∨ s = "\n") ∧
      ((∀ m ∈ entries, m.columnDefault ≠ "") → seps.head? = some "\n") ∧
      printRepeats db schema =
        ⟨"\nMatches:"
          ++ concat (List.zipWith
              (fun s m => s ++ ("sequence: " ++ m.columnDefault ++ ")\ttableName: "
                ++ m.tableName ++ ";\tcolumnName: " ++ m.columnName ++ ";") ++ "\n")
              seps entries)
          ++ "\nTotal:" ++ Nat.repr entries.length ++ "\n", Exit.ok⟩ := by
  obtain ⟨groups, hent, hprint⟩ := printRepeats_of_accumulated db schema entries h
  have hlen : ¬ (entries.length = 0) := fun h0 => hne (List.length_eq_zero.1 h0)
  rw [if_neg hlen, concat_runText, ← hent] at hprint
  refine ⟨groups.flatMap (separators ""), ?_, separators_flatMap_mem groups, ?_, hprint⟩
  · rw [hent]
    exact separators_flatMap_length groups
  · intro hdef
    rw [hent] at hne hdef
    exact separators_head groups hne hdef

/-- C10 at the reused-sequence scenario. -/
theorem report_content_witness :
    accumulated reusedDB "public" = some [usersId, accountsId, usersId, accountsId] ∧
    ∃ seps : List String, seps.length = [usersId, accountsId, usersId, accountsId].length ∧
      (∀ s ∈ seps, s = "" ∨ s = "\n") ∧
      ((∀ m ∈ [usersId, accountsId, usersId, accountsId], m.columnDefault ≠ "") →
        seps.head? = some "\n") ∧
      printRepeats reusedDB "public" =
        ⟨"\nMatches:"
          ++ concat (List.zipWith
              (fun s m => s ++ ("sequence: " ++ m.columnDefault ++ ")\ttableName: "
                ++ m.tableName ++ ";\tcolumnName: " ++ m.columnName ++ ";") ++ "\n")
              seps [usersId, accountsId, usersId, accountsId])
          ++ "\nTotal:" ++ Nat.repr [usersId, accountsId, usersId, accountsId].length ++ "\n",
          Exit.ok⟩ :=
  ⟨by decide, report_content reusedDB "public" [usersId, accountsId, usersId, accountsId]
    (by decide) (by decide)⟩

end DbTool
